import Mathlib

/-!
Verification of the workspace config-sync tools: a shallow embedding of
`scripts/sync_precommit.py` (hook scoping and merging) and
`scripts/sync_pyproject.py` (dependency-manifest reconciliation), with
theorems settling the spec's claims about them.

YAML/TOML documents are modelled structurally: a pre-commit hook is a record
of its optional string fields, a pyproject document is a record of the keys
the tool touches plus opaque association lists for everything it does not
own.  All string surgery from the Python source (f-string prefixing,
`str.replace`, `re.sub(r"\s+", "")`, `startswith`) is re-implemented over
`List Char` so that every definition evaluates by `decide`/`rfl`.
-/

/-- One pre-commit hook entry, as a dictionary of the fields
`sync_precommit.py` reads or writes.  `id` is required (the script indexes
`hook['id']` unconditionally); every other field is optional. -/
structure Hook where
  id : String
  name : Option String := none
  files : Option String := none
  exclude : Option String := none
  language : Option String := none
  entry : Option String := none
  «alias» : Option String := none
deriving DecidableEq, Repr

/-- The ASCII whitespace class of Python's `re` `\s` (the source only ever
feeds it single-line ASCII patterns). -/
def pyWs (c : Char) : Bool :=
  c = ' ' || c = '\t' || c = '\n' || c = '\r' || c = '\x0b' || c = '\x0c'

/-- `'(?x)' in exclude`: substring containment of the verbose-regex marker. -/
def hasMarker : List Char → Bool
  | '(' :: '?' :: 'x' :: ')' :: _ => true
  | _ :: cs => hasMarker cs
  | [] => false

/-- `exclude.replace('(?x)', '')`: left-to-right removal of every occurrence
of the verbose-regex marker. -/
def dropMarker : List Char → List Char
  | '(' :: '?' :: 'x' :: ')' :: cs => dropMarker cs
  | c :: cs => c :: dropMarker cs
  | [] => []

/-- Lines 23–28 of `scope_hook`: prefix the `files` pattern.  A missing key
reads as `''` (`hook.get('files', '')`), and Python truthiness sends the
empty string to the else branch. -/
def scopeFiles (subtree : String) (files : Option String) : String :=
  let existing := files.getD ""
  if existing ≠ "" then "^" ++ subtree ++ "/(" ++ existing ++ ")"
  else "^" ++ subtree ++ "/"

/-- Lines 31–46 of `scope_hook`: rewrite an `exclude` pattern.  If it
contains `(?x)`, the marker is removed and all whitespace stripped; then a
leading `^` anchor is replaced by `^<subtree>/`, and an unanchored pattern
is wrapped as `^<subtree>/(<pattern>)`. -/
def scopeExclude (subtree : String) (exclude : String) : String :=
  let flat :=
    if hasMarker exclude.toList then
      String.mk ((dropMarker exclude.toList).filter (fun c => !pyWs c))
    else exclude
  match flat.toList with
  | '^' :: rest => "^" ++ subtree ++ "/" ++ String.mk rest
  | _ => "^" ++ subtree ++ "/(" ++ flat ++ ")"

/-- `scope_hook(hook, subtree, is_local)` from `sync_precommit.py` lines
18–60.  Note the source order: the `id` rewrite (line 50) happens before the
`name` fallback reads `hook['id']` (line 58), so a local hook with no `name`
falls back to the already-prefixed id. -/
def scope_hook (h : Hook) (subtree : String) (is_local : Bool) : Hook :=
  let files' := scopeFiles subtree h.files
  let exclude' := h.exclude.map (scopeExclude subtree)
  let id' := if is_local then subtree ++ "-" ++ h.id else h.id
  let alias' :=
    if is_local then h.«alias».map (fun a => subtree ++ "-" ++ a)
    else some (subtree ++ "-" ++ h.id)
  let name' := "[" ++ subtree ++ "] " ++ h.name.getD id'
  { h with
    files := some files'
    exclude := exclude'
    id := id'
    «alias» := alias'
    name := some name' }

/-- `scope_local_hook(hook, subtree)` lines 63–71: scope with
`is_local=True`, then prefix `entry` when `language == 'script'`. -/
def scope_local_hook (h : Hook) (subtree : String) : Hook :=
  let h' := scope_hook h subtree true
  if h'.language = some "script" then
    match h'.entry with
    | some e => { h' with entry := some (subtree ++ "/" ++ e) }
    | none => h'
  else h'

/-- One `repos:` entry of a pre-commit config: a repo identifier (the
string `"local"` is the local sentinel), an optional `rev`, and a hook
list. -/
structure RepoBlock where
  repo : String
  rev : Option String := none
  hooks : List Hook := []
deriving DecidableEq, Repr

/-- A `.pre-commit-config.yaml` document: its `repos` list. -/
structure PreCommitConfig where
  repos : List RepoBlock := []
deriving DecidableEq, Repr

/-- Lines 109–113 of `merge_configs`: the output block for one remote input
block — same `repo`, `rev` defaulted to `"main"` when absent, hooks scoped
with `is_local=False`. -/
def scopedRemoteBlock (p : String) (r : RepoBlock) : RepoBlock :=
  { repo := r.repo
    rev := some (r.rev.getD "main")
    hooks := r.hooks.map (fun h => scope_hook h p false) }

/-- One iteration of the inner `for repo in config.get('repos', [])` loop:
local blocks feed the accumulated local-hook list, remote blocks append a
scoped block to the merged list. -/
def repoStep (p : String) (acc : List RepoBlock × List Hook) (r : RepoBlock) :
    List RepoBlock × List Hook :=
  if r.repo = "local" then
    (acc.1, acc.2 ++ r.hooks.map (fun h => scope_local_hook h p))
  else
    (acc.1 ++ [scopedRemoteBlock p r], acc.2)

/-- One iteration of the outer `for st in subtrees` loop; a subtree whose
config file does not exist is skipped. -/
def subtreeStep (acc : List RepoBlock × List Hook)
    (st : String × Option PreCommitConfig) : List RepoBlock × List Hook :=
  match st.2 with
  | none => acc
  | some cfg => cfg.repos.foldl (repoStep st.1) acc

/-- `merge_configs` from `sync_precommit.py` lines 74–123, over the manifest
subtree paths paired with each subtree's config (`none` when the subtree has
no `.pre-commit-config.yaml`).  A missing manifest or an empty subtree list
is the empty input list, giving `repos = []`.  After the loops, the
accumulated local hooks — if any — are appended as a single
`{'repo': 'local'}` block. -/
def merge_configs (sts : List (String × Option PreCommitConfig)) :
    List RepoBlock :=
  let acc := sts.foldl subtreeStep ([], [])
  if acc.2.isEmpty then acc.1
  else acc.1 ++ [{ repo := "local", rev := none, hooks := acc.2 }]

/-- Declarative description: the scoped remote blocks contributed by one
subtree, in that subtree's own block order. -/
def remoteBlocksOf (p : String) (cfg : PreCommitConfig) : List RepoBlock :=
  (cfg.repos.filter (fun r => !(r.repo = "local"))).map (scopedRemoteBlock p)

/-- Declarative description: the scoped local hooks contributed by one
subtree, in that subtree's own block-then-hook order. -/
def localHooksOf (p : String) (cfg : PreCommitConfig) : List Hook :=
  ((cfg.repos.filter (fun r => r.repo = "local")).map
    (fun r => r.hooks.map (fun h => scope_local_hook h p))).flatten

/-- All remote blocks of a merge input, in manifest-then-block order. -/
def allRemote (sts : List (String × Option PreCommitConfig)) : List RepoBlock :=
  (sts.map (fun st => match st.2 with
    | none => []
    | some cfg => remoteBlocksOf st.1 cfg)).flatten

/-- All scoped local hooks of a merge input, in manifest-then-block order. -/
def allLocal (sts : List (String × Option PreCommitConfig)) : List Hook :=
  (sts.map (fun st => match st.2 with
    | none => []
    | some cfg => localHooksOf st.1 cfg)).flatten

/-- `get_package_name(path)` from `sync_pyproject.py` lines 24–26:
`path.replace("/", "-").replace("_", "-")`.  Both patterns are single
characters, so the composition is a character map. -/
def get_package_name (path : String) : String :=
  String.mk (path.toList.map (fun c =>
    if c = '/' then '-' else if c = '_' then '-' else c))

/-- The `if name not in existing: existing.append(name)` body (lines 61–63
and 87–89). -/
def addUnique (xs : List String) (n : String) : List String :=
  if n ∈ xs then xs else xs ++ [n]

/-- The whole `for name in dep_names` union loop: fold `addUnique` over the
derived names, starting from the existing list. -/
def unionKeepOrder (xs ns : List String) : List String :=
  ns.foldl addUnique xs

/-- One `tool.<pkgmgr>.sources` entry: `{path = "...", editable = true}`. -/
structure SrcEntry where
  spath : String
  editable : Bool
deriving DecidableEq, Repr

/-- `config["tool"]["uv"]["sources"][name] = source`: a tomlkit table keeps
an existing key's position on re-assignment and appends a new key. -/
def upsert (m : List (String × SrcEntry)) (k : String) (v : SrcEntry) :
    List (String × SrcEntry) :=
  if m.any (fun p => p.1 = k) then
    m.map (fun p => if p.1 = k then (k, v) else p)
  else m ++ [(k, v)]

/-- The `[project]` table: the keys `sync_pyproject` may touch, plus an
opaque association list for every other key tomlkit round-trips. -/
structure Project where
  name : Option String := none
  version : Option String := none
  dependencies : Option (List String) := none
  other : List (String × Nat) := []
deriving DecidableEq, Repr

/-- The `[tool.uv]` table: `sources`, `override-dependencies`, and an opaque
rest. -/
structure Uv where
  sources : Option (List (String × SrcEntry)) := none
  overrideDeps : Option (List String) := none
  other : List (String × Nat) := []
deriving DecidableEq, Repr

/-- The `[tool]` table: the `uv` subtable and an opaque rest. -/
structure Tool where
  uv : Option Uv := none
  other : List (String × Nat) := []
deriving DecidableEq, Repr

/-- A pyproject document: the tables the tool touches plus an opaque rest of
top-level keys.  `none` models an absent table. -/
structure Doc where
  project : Option Project := none
  tool : Option Tool := none
  other : List (String × Nat) := []
deriving DecidableEq, Repr

/-- One manifest entry: subtree path and its `install` flag
(`st.get("install", False)`). -/
structure SubtreeEntry where
  path : String
  install : Bool
deriving DecidableEq, Repr

/-- `sync_pyproject` from `sync_pyproject.py` lines 29–97, as a pure
document transformer (file I/O elided): filter installable subtrees — none
means the manifest is left untouched — then ensure `[project]` exists
(creating it with placeholder name/version), union the derived package
names into `project.dependencies`, ensure `[tool]`/`[tool.uv]`/`sources`
exist, upsert a `{path, editable}` source per installable subtree, and union
the same names into `override-dependencies`. -/
def sync_pyproject (subtrees : List SubtreeEntry) (doc : Doc) : Doc :=
  let installable := subtrees.filter (fun st => st.install)
  if installable.isEmpty then doc
  else
    let depNames := installable.map (fun st => get_package_name st.path)
    let proj0 := doc.project.getD
      { name := some "workspace", version := some "0.1.0" }
    let proj1 := { proj0 with
      dependencies := some (unionKeepOrder (proj0.dependencies.getD []) depNames) }
    let tool0 := doc.tool.getD {}
    let uv0 := tool0.uv.getD {}
    let sources1 := installable.foldl
      (fun m st => upsert m (get_package_name st.path)
        { spath := "./" ++ st.path, editable := true })
      (uv0.sources.getD [])
    let uv1 := { uv0 with
      sources := some sources1
      overrideDeps := some (unionKeepOrder (uv0.overrideDeps.getD []) depNames) }
    { doc with
      project := some proj1
      tool := some { tool0 with uv := some uv1 } }

/-- `project.dependencies` read back from a document, `[]` when absent. -/
def projDeps (d : Doc) : List String :=
  ((d.project.map (fun p => p.dependencies.getD [])).getD [])

/-- `tool.uv.override-dependencies` read back, `[]` when absent. -/
def uvOverrides (d : Doc) : List String :=
  ((d.tool.bind Tool.uv).map (fun u => u.overrideDeps.getD [])).getD []

/-- `tool.uv.sources` read back, `[]` when absent. -/
def uvSources (d : Doc) : List (String × SrcEntry) :=
  ((d.tool.bind Tool.uv).map (fun u => u.sources.getD [])).getD []

/-! ### Helper lemmas -/

theorem foldl_repoStep (p : String) (rs : List RepoBlock)
    (m : List RepoBlock) (l : List Hook) :
    rs.foldl (repoStep p) (m, l) =
      (m ++ remoteBlocksOf p ⟨rs⟩, l ++ localHooksOf p ⟨rs⟩) := by
  induction rs generalizing m l with
  | nil => simp [remoteBlocksOf, localHooksOf]
  | cons r rs ih =>
    simp only [List.foldl_cons, repoStep]
    by_cases hloc : r.repo = "local"
    · simp only [hloc, if_pos rfl, ih]
      simp [remoteBlocksOf, localHooksOf, hloc, List.filter_cons]
    · simp only [if_neg hloc, ih]
      simp [remoteBlocksOf, localHooksOf, hloc, List.filter_cons]

theorem foldl_subtreeStep (sts : List (String × Option PreCommitConfig))
    (m : List RepoBlock) (l : List Hook) :
    sts.foldl subtreeStep (m, l) = (m ++ allRemote sts, l ++ allLocal sts) := by
  induction sts generalizing m l with
  | nil => simp [allRemote, allLocal]
  | cons st sts ih =>
    obtain ⟨p, ocfg⟩ := st
    cases ocfg with
    | none => simp [List.foldl_cons, subtreeStep, ih, allRemote, allLocal]
    | some cfg =>
      simp only [List.foldl_cons, subtreeStep, foldl_repoStep, ih]
      simp [allRemote, allLocal]

theorem merge_configs_eq (sts : List (String × Option PreCommitConfig)) :
    merge_configs sts =
      allRemote sts ++
        (if allLocal sts = [] then []
         else [{ repo := "local", rev := none, hooks := allLocal sts }]) := by
  unfold merge_configs
  rw [show sts.foldl subtreeStep ([], []) =
      ([] ++ allRemote sts, [] ++ allLocal sts) from foldl_subtreeStep sts [] []]
  simp only [List.nil_append]
  by_cases h : allLocal sts = []
  · simp [h]
  · simp [h, List.isEmpty_iff]

theorem mem_addUnique_of_mem {xs : List String} {x : String} (n : String)
    (h : x ∈ xs) : x ∈ addUnique xs n := by
  unfold addUnique
  split <;> simp [h]

theorem mem_addUnique_self (xs : List String) (n : String) :
    n ∈ addUnique xs n := by
  unfold addUnique
  split
  · assumption
  · simp

theorem mem_unionKeepOrder_of_mem {xs : List String} {x : String}
    (ns : List String) (h : x ∈ xs) : x ∈ unionKeepOrder xs ns := by
  induction ns generalizing xs with
  | nil => exact h
  | cons n ns ih => exact ih (mem_addUnique_of_mem n h)

theorem mem_unionKeepOrder_of_mem_right {ns : List String} {n : String}
    (xs : List String) (h : n ∈ ns) : n ∈ unionKeepOrder xs ns := by
  induction ns generalizing xs with
  | nil => cases h
  | cons m ms ih =>
    rcases List.mem_cons.mp h with h1 | h2
    · subst h1
      exact mem_unionKeepOrder_of_mem ms (mem_addUnique_self xs n)
    · exact ih (addUnique xs m) h2

theorem unionKeepOrder_eq_append (xs ns : List String) :
    ∃ t, unionKeepOrder xs ns = xs ++ t ∧ ∀ n ∈ t, n ∉ xs := by
  induction ns generalizing xs with
  | nil => exact ⟨[], by simp [unionKeepOrder]⟩
  | cons n ns ih =>
    by_cases hn : n ∈ xs
    · obtain ⟨t, ht, hnot⟩ := ih xs
      refine ⟨t, ?_, hnot⟩
      simpa [unionKeepOrder, addUnique, hn] using ht
    · obtain ⟨t, ht, hnot⟩ := ih (xs ++ [n])
      refine ⟨n :: t, ?_, ?_⟩
      · simpa [unionKeepOrder, addUnique, hn] using ht
      · intro m hm
        rcases List.mem_cons.mp hm with h1 | h2
        · subst h1; exact hn
        · intro hmx
          exact hnot m h2 (by simp [hmx])

theorem unionKeepOrder_eq_self {xs ns : List String}
    (h : ∀ n ∈ ns, n ∈ xs) : unionKeepOrder xs ns = xs := by
  induction ns generalizing xs with
  | nil => rfl
  | cons n ns ih =>
    have hn : n ∈ xs := h n (by simp)
    have : addUnique xs n = xs := by simp [addUnique, hn]
    simp only [unionKeepOrder, List.foldl_cons, this]
    exact ih (fun m hm => h m (by simp [hm]))

theorem unionKeepOrder_idem (xs ns : List String) :
    unionKeepOrder (unionKeepOrder xs ns) ns = unionKeepOrder xs ns :=
  unionKeepOrder_eq_self (fun _ hn => mem_unionKeepOrder_of_mem_right xs hn)

theorem string_append_cancel {a b c : String} (h : a ++ c = b ++ c) :
    a = b := by
  have hd : a.data ++ c.data = b.data ++ c.data := by
    have := congrArg String.data h
    simpa [String.data_append] using this
  exact String.ext (List.append_cancel_right hd)

theorem scoped_id_injective {s1 s2 i : String} (hne : s1 ≠ s2) :
    s1 ++ "-" ++ i ≠ s2 ++ "-" ++ i := by
  intro h
  exact hne (string_append_cancel (string_append_cancel (by
    simpa [String.append_assoc] using h)))

theorem scope_hook_files (h : Hook) (p : String) (b : Bool) :
    (scope_hook h p b).files = some (scopeFiles p h.files) := rfl

theorem scope_local_hook_files (h : Hook) (p : String) :
    (scope_local_hook h p).files = some (scopeFiles p h.files) := by
  simp only [scope_local_hook]
  split
  · split <;> rfl
  · rfl

theorem scopeFiles_anchored (p : String) (f : Option String) :
    ∃ rest, scopeFiles p f = "^" ++ p ++ "/" ++ rest := by
  simp only [scopeFiles]
  split
  · refine ⟨"(" ++ f.getD "" ++ ")", ?_⟩
    have h2 : ("/(" : String) = "/" ++ "(" := rfl
    rw [h2]
    simp only [String.append_assoc]
  · exact ⟨"", by simp⟩

theorem mem_allRemote {sts : List (String × Option PreCommitConfig)}
    {blk : RepoBlock} (hb : blk ∈ allRemote sts) :
    ∃ p, p ∈ sts.map Prod.fst ∧
      ∃ r, blk = scopedRemoteBlock p r ∧ ¬ r.repo = "local" := by
  unfold allRemote at hb
  rw [List.mem_flatten] at hb
  obtain ⟨l, hl, hbl⟩ := hb
  rw [List.mem_map] at hl
  obtain ⟨st, hst, rfl⟩ := hl
  match hc : st.2 with
  | none => simp [hc] at hbl
  | some cfg =>
    simp only [hc] at hbl
    unfold remoteBlocksOf at hbl
    rw [List.mem_map] at hbl
    obtain ⟨r, hr, rfl⟩ := hbl
    refine ⟨st.1, List.mem_map_of_mem Prod.fst hst, r, rfl, ?_⟩
    have := (List.mem_filter.mp hr).2
    simpa using this

theorem mem_allLocal {sts : List (String × Option PreCommitConfig)}
    {h : Hook} (hh : h ∈ allLocal sts) :
    ∃ p, p ∈ sts.map Prod.fst ∧ ∃ h0, h = scope_local_hook h0 p := by
  unfold allLocal at hh
  rw [List.mem_flatten] at hh
  obtain ⟨l, hl, hhl⟩ := hh
  rw [List.mem_map] at hl
  obtain ⟨st, hst, rfl⟩ := hl
  match hc : st.2 with
  | none => simp [hc] at hhl
  | some cfg =>
    simp only [hc] at hhl
    unfold localHooksOf at hhl
    rw [List.mem_flatten] at hhl
    obtain ⟨l2, hl2, hhl2⟩ := hhl
    rw [List.mem_map] at hl2
    obtain ⟨r, _, rfl⟩ := hl2
    rw [List.mem_map] at hhl2
    obtain ⟨h0, _, rfl⟩ := hhl2
    exact ⟨st.1, List.mem_map_of_mem Prod.fst hst, h0, rfl⟩

theorem merged_hook_anchored {sts : List (String × Option PreCommitConfig)}
    {blk : RepoBlock} {h : Hook} (hb : blk ∈ merge_configs sts)
    (hh : h ∈ blk.hooks) :
    ∃ p, p ∈ sts.map Prod.fst ∧
      ∃ rest, h.files = some ("^" ++ p ++ "/" ++ rest) := by
  rw [merge_configs_eq] at hb
  rcases List.mem_append.mp hb with hrem | hloc
  · obtain ⟨p, hp, r, rfl, -⟩ := mem_allRemote hrem
    simp only [scopedRemoteBlock, List.mem_map] at hh
    obtain ⟨h0, _, rfl⟩ := hh
    obtain ⟨rest, hrest⟩ := scopeFiles_anchored p h0.files
    exact ⟨p, hp, rest, by rw [scope_hook_files, hrest]⟩
  · split at hloc
    · cases hloc
    · rcases List.mem_singleton.mp hloc with rfl
      obtain ⟨p, hp, h0, rfl⟩ := mem_allLocal hh
      obtain ⟨rest, hrest⟩ := scopeFiles_anchored p h0.files
      exact ⟨p, hp, rest, by rw [scope_local_hook_files, hrest]⟩

theorem scope_local_hook_id (h : Hook) (p : String) :
    (scope_local_hook h p).id = p ++ "-" ++ h.id := by
  simp only [scope_local_hook]
  split
  · split <;> rfl
  · rfl

/-- The installable filter and the derived package names of a manifest. -/
def installableOf (subs : List SubtreeEntry) : List SubtreeEntry :=
  subs.filter (fun st => st.install)

theorem projDeps_sync (subs : List SubtreeEntry) (d : Doc) :
    projDeps (sync_pyproject subs d) =
      if (installableOf subs).isEmpty then projDeps d
      else unionKeepOrder (projDeps d)
        ((installableOf subs).map (fun st => get_package_name st.path)) := by
  unfold sync_pyproject installableOf
  by_cases hi : (subs.filter (fun st => st.install)).isEmpty
  · simp [hi]
  · cases hp : d.project <;> simp [hi, hp, projDeps]

theorem uvOverrides_sync (subs : List SubtreeEntry) (d : Doc) :
    uvOverrides (sync_pyproject subs d) =
      if (installableOf subs).isEmpty then uvOverrides d
      else unionKeepOrder (uvOverrides d)
        ((installableOf subs).map (fun st => get_package_name st.path)) := by
  unfold sync_pyproject installableOf
  by_cases hi : (subs.filter (fun st => st.install)).isEmpty
  · simp [hi]
  · cases ht : d.tool with
    | none => simp [hi, ht, uvOverrides]
    | some t => cases hu : t.uv <;> simp [hi, ht, hu, uvOverrides]

/-- The projection of a document onto everything `sync_pyproject` does not
own, one field per level. -/
structure UnownedView where
  top : List (String × Nat)
  proj : Option (Option String × Option String × List (String × Nat))
  toolRest : Option (List (String × Nat))
  uvRest : Option (List (String × Nat))
deriving DecidableEq, Repr

/-- Everything `sync_pyproject` does not own: the top-level keys other than
`project`/`tool`, the `project` keys other than `dependencies`, and the
`tool`/`tool.uv` keys other than `sources` and `override-dependencies`. -/
def unownedView (d : Doc) : UnownedView :=
  { top := d.other
    proj := d.project.map (fun p => (p.name, p.version, p.other))
    toolRest := d.tool.map Tool.other
    uvRest := (d.tool.bind Tool.uv).map Uv.other }

/-! ### Claim theorems -/

/-- The scenario-A local hook, extended with an anchored `exclude` and a
`script` entry so that every field the idempotence claim names is
exercised. -/
def probeHook : Hook :=
  { id := "check"
    exclude := some "^skip/"
    language := some "script"
    entry := some "run.sh" }

/-- C1: the spec requires re-scoping the merger's own output under the same
subtree path to leave `files`, `exclude`, `id`, and `entry` unchanged, but
`scope_hook` has no already-prefixed guard: running `scope_local_hook` twice
under `tools/lint` wraps `files` a second time, re-prefixes `exclude`,
`id`, and `entry`, so the second output differs from the first on every
field the claim names.  The code contradicts the spec's explicit
idempotence requirement. -/
theorem c1_rescope_not_idempotent :
    (scope_local_hook (scope_local_hook probeHook "tools/lint") "tools/lint").files
        = some "^tools/lint/(^tools/lint/)" ∧
    (scope_local_hook (scope_local_hook probeHook "tools/lint") "tools/lint").exclude
        = some "^tools/lint/tools/lint/skip/" ∧
    (scope_local_hook (scope_local_hook probeHook "tools/lint") "tools/lint").id
        = "tools/lint-tools/lint-check" ∧
    (scope_local_hook (scope_local_hook probeHook "tools/lint") "tools/lint").entry
        = some "tools/lint/tools/lint/run.sh" ∧
    scope_local_hook (scope_local_hook probeHook "tools/lint") "tools/lint"
        ≠ scope_local_hook probeHook "tools/lint" := by
  decide

/-- C4 counterexample: the claim (and spec scenario A) says the scoped
display name of the local hook `{id: "check", files: ""}` under
`tools/lint` is `"[tools/lint] check"`, but the source rewrites `id` on
line 50 before the `name` fallback reads `hook['id']` on line 58, so the
actual name is `"[tools/lint] tools/lint-check"`. -/
theorem c4_name_uses_prefixed_id :
    (scope_local_hook { id := "check", files := some "" } "tools/lint").name
        ≠ some "[tools/lint] check" ∧
    (scope_local_hook { id := "check", files := some "" } "tools/lint").name
        = some "[tools/lint] tools/lint-check" := by
  decide

/-- C4 (amended): the scoped name is `"[<subtree>] "` followed by the
original name when one is present, and otherwise by the id as already
rewritten by the id rule — the original id for remote hooks, the
subtree-prefixed id for local hooks; scenario A accordingly yields
`name = "[tools/lint] tools/lint-check"` (other fields as claimed). -/
theorem c4_scoped_name (h : Hook) (s : String) (b : Bool) :
    (scope_hook h s b).name =
      some ("[" ++ s ++ "] " ++
        h.name.getD (if b then s ++ "-" ++ h.id else h.id)) ∧
    scope_local_hook { id := "check", files := some "" } "tools/lint" =
      { id := "tools/lint-check"
        name := some "[tools/lint] tools/lint-check"
        files := some "^tools/lint/" } := by
  exact ⟨rfl, by decide⟩

/-- C6: remote scoping (`is_local=false`) never touches `id` and sets
`alias = <subtree>-<original id>`; on scenario B's hook
`{id: "black", files: "\.py$"}` under `libs/core` this keeps `id = "black"`
and produces `alias = "libs/core-black"`, `files = "^libs/core/(\.py$)"`
(and `name = "[libs/core] black"` from the name rule). -/
theorem c6_remote_keeps_id (h : Hook) (s : String) :
    (scope_hook h s false).id = h.id ∧
    (scope_hook h s false).«alias» = some (s ++ "-" ++ h.id) ∧
    scope_hook { id := "black", files := some "\\.py$" } "libs/core" false =
      { id := "black"
        name := some "[libs/core] black"
        files := some "^libs/core/(\\.py$)"
        «alias» := some "libs/core-black" } := by
  exact ⟨rfl, rfl, by decide⟩

/-- The scenario-D manifest: two installable subtrees whose paths differ
but slug to the same package name. -/
def c10Subs : List SubtreeEntry := [⟨"pkg_a", true⟩, ⟨"pkg/a", true⟩]

/-- C10: the spec says a slug collision must be detected and rejected, but
`sync_pyproject` has no collision check: `pkg_a` and `pkg/a` both slug to
`pkg-a`, the union loop records the name once, and the sources upsert is
last-writer-wins — the merged manifest silently maps the single package
`pkg-a` to `./pkg/a`.  The code contradicts the spec's requirement. -/
theorem c10_collision_silently_merged :
    get_package_name "pkg_a" = "pkg-a" ∧
    get_package_name "pkg/a" = "pkg-a" ∧
    ("pkg_a" : String) ≠ "pkg/a" ∧
    projDeps (sync_pyproject c10Subs {}) = ["pkg-a"] ∧
    uvOverrides (sync_pyproject c10Subs {}) = ["pkg-a"] ∧
    uvSources (sync_pyproject c10Subs {}) =
      [("pkg-a", { spath := "./pkg/a", editable := true })] := by
  decide

/-- C2: `scope_hook` rewrites a set, non-empty `files` to
`^<subtree>/(<original>)` and an unset or empty one to `^<subtree>/`; and
every hook of every block in a merged config carries a `files` pattern of
the form `^<subtree path>/…` for some subtree path of the input manifest
(the string-level reading of "matches only paths beginning with
`<subtree>/`": the pattern is a start anchor followed by the subtree
directory). -/
theorem c2_files_scoped_and_anchored (h : Hook) (s : String) (b : Bool) :
    ((h.files.getD "" = "" →
        (scope_hook h s b).files = some ("^" ++ s ++ "/")) ∧
     (h.files.getD "" ≠ "" →
        (scope_hook h s b).files =
          some ("^" ++ s ++ "/(" ++ h.files.getD "" ++ ")"))) ∧
    ∀ (sts : List (String × Option PreCommitConfig)) (blk : RepoBlock)
      (hk : Hook), blk ∈ merge_configs sts → hk ∈ blk.hooks →
        ∃ p, p ∈ sts.map Prod.fst ∧
          ∃ rest, hk.files = some ("^" ++ p ++ "/" ++ rest) := by
  refine ⟨⟨?_, ?_⟩, ?_⟩
  · intro he
    rw [scope_hook_files]
    simp [scopeFiles, he]
  · intro he
    rw [scope_hook_files]
    simp [scopeFiles, he]
  · intro sts blk hk hb hh
    exact merged_hook_anchored hb hh

/-- A concrete two-subtree merge input: `libs/core` with one remote block
and one local block, `tools/lint` with no config file. -/
def exInput : List (String × Option PreCommitConfig) :=
  [("libs/core", some
     { repos :=
        [{ repo := "https://example/black", rev := some "1.0",
           hooks := [{ id := "black", files := some "\\.py$" }] },
         { repo := "local", hooks := [{ id := "check", files := some "" }] }] }),
   ("tools/lint", none)]

/-- C2 witness: the theorem applied at scenario A's hook (empty `files`)
and at a hook of the concrete merged config. -/
theorem c2_files_scoped_and_anchored_witness :
    (scope_hook { id := "check", files := some "" } "tools/lint" true).files
        = some ("^" ++ "tools/lint" ++ "/") ∧
    ∃ p, p ∈ exInput.map Prod.fst ∧
      ∃ rest,
        (scope_hook { id := "black", files := some "\\.py$" } "libs/core" false).files
          = some ("^" ++ p ++ "/" ++ rest) :=
  ⟨(c2_files_scoped_and_anchored { id := "check", files := some "" }
      "tools/lint" true).1.1 (by decide),
   (c2_files_scoped_and_anchored { id := "check", files := some "" }
      "tools/lint" true).2 exInput
      { repo := "https://example/black", rev := some "1.0",
        hooks := [scope_hook { id := "black", files := some "\\.py$" }
          "libs/core" false] }
      (scope_hook { id := "black", files := some "\\.py$" } "libs/core" false)
      (by decide) (by decide)⟩

/-- A merge input on which two distinct local hooks collide after scoping:
subtree `a` defines local hook `b-c`, subtree `a-b` defines local hook `c`;
both scoped ids are `a-b-c`. -/
def c3Input : List (String × Option PreCommitConfig) :=
  [("a", some { repos := [{ repo := "local", hooks := [{ id := "b-c" }] }] }),
   ("a-b", some { repos := [{ repo := "local", hooks := [{ id := "c" }] }] })]

/-- C3 counterexample: the merged local RepoBlock of `c3Input` holds two
distinct hooks whose scoped ids are both `"a-b-c"` — the `<subtree>-<id>`
join is not injective when the original ids differ, so the claim's
unqualified uniqueness statement fails. -/
theorem c3_scoped_ids_can_collide :
    merge_configs c3Input =
      [{ repo := "local", rev := none,
         hooks := [scope_local_hook { id := "b-c" } "a",
                   scope_local_hook { id := "c" } "a-b"] }] ∧
    scope_local_hook { id := "b-c" } "a" ≠ scope_local_hook { id := "c" } "a-b" ∧
    (scope_local_hook { id := "b-c" } "a").id
      = (scope_local_hook { id := "c" } "a-b").id := by
  decide

/-- C3 (amended): in the case the claim highlights — two subtrees defining
local hooks with the same original id — the scoped ids are indeed distinct:
equal original ids and distinct subtree paths force
`<s1>-<id> ≠ <s2>-<id>`.  (The counterexample shows the unrestricted
statement fails when the original ids differ.) -/
theorem c3_same_id_distinct_subtrees (h1 h2 : Hook) (s1 s2 : String)
    (hs : s1 ≠ s2) (hid : h1.id = h2.id) :
    (scope_local_hook h1 s1).id ≠ (scope_local_hook h2 s2).id := by
  rw [scope_local_hook_id, scope_local_hook_id, hid]
  exact scoped_id_injective hs

/-- C3 witness: the amended theorem applied to two subtrees that share the
hook id `check`. -/
theorem c3_same_id_distinct_subtrees_witness :
    ("tools/lint" : String) ≠ "libs/core" ∧
    ({ id := "check" } : Hook).id = ({ id := "check" } : Hook).id ∧
    (scope_local_hook { id := "check" } "tools/lint").id
      ≠ (scope_local_hook { id := "check" } "libs/core").id :=
  ⟨by decide, rfl,
   c3_same_id_distinct_subtrees { id := "check" } { id := "check" }
     "tools/lint" "libs/core" (by decide) rfl⟩

/-- C5: scoping an `exclude` pattern first flattens it when it carries the
verbose marker `(?x)` (marker stripped, all whitespace removed), then
replaces a leading `^` anchor by `^<subtree>/` and wraps an unanchored
pattern as `^<subtree>/(<pattern>)`; scenario C's `(?x) ^ (a|b) $` under
subtree `x` comes out as `^x/(a|b)$`. -/
theorem c5_exclude_rewrite (h : Hook) (s e : String) (b : Bool)
    (hx : h.exclude = some e) :
    (scope_hook h s b).exclude =
      some (
        let flat :=
          if hasMarker e.toList then
            String.mk ((dropMarker e.toList).filter (fun c => !pyWs c))
          else e
        match flat.toList with
        | '^' :: rest => "^" ++ s ++ "/" ++ String.mk rest
        | _ => "^" ++ s ++ "/(" ++ flat ++ ")") ∧
    (scope_hook { id := "h", exclude := some "(?x) ^ (a|b) $" } "x" false).exclude
      = some "^x/(a|b)$" := by
  constructor
  · have hmap : (scope_hook h s b).exclude = h.exclude.map (scopeExclude s) := rfl
    rw [hmap, hx]
    rfl
  · decide

/-- C5 witness: the theorem applied at scenario C's hook. -/
theorem c5_exclude_rewrite_witness :
    ({ id := "h", exclude := some "(?x) ^ (a|b) $" } : Hook).exclude
      = some "(?x) ^ (a|b) $" ∧
    ((scope_hook { id := "h", exclude := some "(?x) ^ (a|b) $" } "x" false).exclude =
      some (
        let flat :=
          if hasMarker "(?x) ^ (a|b) $".toList then
            String.mk ((dropMarker "(?x) ^ (a|b) $".toList).filter
              (fun c => !pyWs c))
          else "(?x) ^ (a|b) $"
        match flat.toList with
        | '^' :: rest => "^" ++ "x" ++ "/" ++ String.mk rest
        | _ => "^" ++ "x" ++ "/(" ++ flat ++ ")") ∧
     (scope_hook { id := "h", exclude := some "(?x) ^ (a|b) $" } "x" false).exclude
       = some "^x/(a|b)$") :=
  ⟨rfl, c5_exclude_rewrite { id := "h", exclude := some "(?x) ^ (a|b) $" }
    "x" "(?x) ^ (a|b) $" false rfl⟩

/-- C7: the merged repo list is exactly the remote blocks in
manifest-then-block order — one output block per input remote block, each
keeping its repo and carrying `rev` defaulted to `"main"` — followed by a
single `repo = "local"` block exactly when local hooks were accumulated;
no block of the remote segment is the local sentinel. -/
theorem c7_merge_order (sts : List (String × Option PreCommitConfig)) :
    merge_configs sts =
      allRemote sts ++
        (if allLocal sts = [] then []
         else [{ repo := "local", rev := none, hooks := allLocal sts }]) ∧
    (∀ (p : String) (r : RepoBlock),
        (scopedRemoteBlock p r).repo = r.repo ∧
        (scopedRemoteBlock p r).rev = some (r.rev.getD "main")) ∧
    ∀ blk : RepoBlock, blk ∈ allRemote sts → ¬ blk.repo = "local" := by
  refine ⟨merge_configs_eq sts, fun p r => ⟨rfl, rfl⟩, ?_⟩
  intro blk hb
  obtain ⟨p, -, r, rfl, hr⟩ := mem_allRemote hb
  exact hr

/-- C7 witness: the theorem applied to the concrete input `exInput`, and
its non-local guarantee applied to the remote block that input produces. -/
theorem c7_merge_order_witness :
    merge_configs exInput =
      allRemote exInput ++
        (if allLocal exInput = [] then []
         else [{ repo := "local", rev := none, hooks := allLocal exInput }]) ∧
    ¬ (scopedRemoteBlock "libs/core"
        { repo := "https://example/black", rev := some "1.0",
          hooks := [{ id := "black", files := some "\\.py$" }] }).repo
      = "local" :=
  ⟨(c7_merge_order exInput).1,
   (c7_merge_order exInput).2.2 _ (by decide)⟩

/-- C8: one reconciliation run extends `project.dependencies` and
`tool.uv.override-dependencies` by appending only names not already
present (existing entries are neither reordered nor removed), and a second
run with the same subtree manifest leaves both lists exactly as the first
run produced them. -/
theorem c8_reconcile_idempotent (subs : List SubtreeEntry) (d : Doc) :
    projDeps (sync_pyproject subs (sync_pyproject subs d))
      = projDeps (sync_pyproject subs d) ∧
    uvOverrides (sync_pyproject subs (sync_pyproject subs d))
      = uvOverrides (sync_pyproject subs d) ∧
    (∃ t, projDeps (sync_pyproject subs d) = projDeps d ++ t ∧
          ∀ n ∈ t, n ∉ projDeps d) ∧
    (∃ t, uvOverrides (sync_pyproject subs d) = uvOverrides d ++ t ∧
          ∀ n ∈ t, n ∉ uvOverrides d) := by
  have hd := projDeps_sync subs d
  have hd2 := projDeps_sync subs (sync_pyproject subs d)
  have ho := uvOverrides_sync subs d
  have ho2 := uvOverrides_sync subs (sync_pyproject subs d)
  by_cases hi : (installableOf subs).isEmpty
  · simp only [hi, if_pos] at hd hd2 ho ho2
    exact ⟨by rw [hd2, hd], by rw [ho2, ho],
      ⟨[], by simp [hd], by simp⟩, ⟨[], by simp [ho], by simp⟩⟩
  · simp only [hi, if_neg, Bool.false_eq_true, not_false_iff, ite_false] at hd hd2 ho ho2
    refine ⟨?_, ?_, ?_, ?_⟩
    · rw [hd2, hd, unionKeepOrder_idem]
    · rw [ho2, ho, unionKeepOrder_idem]
    · rw [hd]; exact unionKeepOrder_eq_append _ _
    · rw [ho]; exact unionKeepOrder_eq_append _ _

/-- A manifest with top-level content only: no `[project]` table. -/
def c9Doc : Doc := { other := [("custom", 7)] }

/-- C9 counterexample: on an existing manifest with no `[project]` table,
reconciliation does not only change the three owned keys — it also inserts
`project.name = "workspace"` and `project.version = "0.1.0"` (lines 51–54
run for any document missing the table, not just for a missing file), so
keys outside the owned three are added. -/
theorem c9_adds_placeholder_project :
    unownedView (sync_pyproject [⟨"pkg", true⟩] c9Doc) ≠ unownedView c9Doc ∧
    c9Doc.project = none ∧
    ((sync_pyproject [⟨"pkg", true⟩] c9Doc).project.map
        (fun p => (p.name, p.version)))
      = some (some "workspace", some "0.1.0") ∧
    (sync_pyproject [⟨"pkg", true⟩] c9Doc).other = c9Doc.other := by
  decide

/-- C9 (amended): provided the existing manifest already has a `[project]`
table, reconciliation touches nothing outside the three owned keys: the
other top-level keys, the project name, version and other project keys, and
the unowned keys of `[tool]` and `[tool.uv]` all pass through unchanged
(the parent tables themselves are created empty when absent, since the
owned keys live under them).  When `[project]` is absent, placeholder
name/version are additionally inserted, as the counterexample shows. -/
theorem c9_frame (subs : List SubtreeEntry) (d : Doc)
    (hp : d.project.isSome) :
    (sync_pyproject subs d).other = d.other ∧
    ((sync_pyproject subs d).project.map (fun p => (p.name, p.version, p.other)))
      = d.project.map (fun p => (p.name, p.version, p.other)) ∧
    (((sync_pyproject subs d).tool.map Tool.other).getD [])
      = ((d.tool.map Tool.other).getD []) ∧
    ((((sync_pyproject subs d).tool.bind Tool.uv).map Uv.other).getD [])
      = (((d.tool.bind Tool.uv).map Uv.other).getD []) := by
  obtain ⟨p, hp⟩ := Option.isSome_iff_exists.mp hp
  unfold sync_pyproject
  by_cases hi : (subs.filter (fun st => st.install)).isEmpty
  · simp [hi]
  · cases ht : d.tool with
    | none => simp [hi, hp, ht]
    | some t => cases hu : t.uv <;> simp [hi, hp, ht, hu]

/-- A manifest that already has a `[project]` table, with unowned content
at every level. -/
def c9SomeDoc : Doc :=
  { project := some { name := some "demo", version := some "1.2.3",
                      dependencies := some ["x"], other := [("k", 1)] },
    tool := some { uv := some { other := [("u", 3)] }, other := [("t", 4)] },
    other := [("top", 2)] }

/-- C9 witness: the amended frame theorem applied to `c9SomeDoc`. -/
theorem c9_frame_witness :
    c9SomeDoc.project.isSome ∧
    ((sync_pyproject [⟨"pkg", true⟩] c9SomeDoc).other = c9SomeDoc.other ∧
     ((sync_pyproject [⟨"pkg", true⟩] c9SomeDoc).project.map
        (fun p => (p.name, p.version, p.other)))
       = c9SomeDoc.project.map (fun p => (p.name, p.version, p.other)) ∧
     (((sync_pyproject [⟨"pkg", true⟩] c9SomeDoc).tool.map Tool.other).getD [])
       = ((c9SomeDoc.tool.map Tool.other).getD []) ∧
     ((((sync_pyproject [⟨"pkg", true⟩] c9SomeDoc).tool.bind Tool.uv).map
          Uv.other).getD [])
       = (((c9SomeDoc.tool.bind Tool.uv).map Uv.other).getD [])) :=
  ⟨by decide, c9_frame [⟨"pkg", true⟩] c9SomeDoc (by decide)⟩
